import Mathlib

set_option maxRecDepth 4000

/-!
# Verification of the rpcap pcap codec

Shallow embedding of the rpcap crate (libpcap file-format codec).

* `src/def.rs`: wire layouts (`PcapFileHeaderInFile`, `PcapRecordHeader`), the
  magic-number variants (`PcapMagic`), the file-header validation
  (`TryFrom<PcapFileHeaderInFile> for PcapFileHeader`) and the time decoding
  (`PcapRecordHeader::get_time`, `make_time`).
* `src/read.rs`: the streaming decoder (`PcapReader::new`, `PcapReader::next`).
* The encoder (`PcapWriter`) of this repository is not present in `src/` in a
  form consistent with the rest of the crate (the `write.rs` file there is a
  stale revision whose API — `WriteOptions`, two-argument
  `PcapFileHeaderInFile::new`, `def::write_file_header` — does not exist in
  `def.rs`/`lib.rs`/`fuzz.rs`, which all use a `FileOptions`-based writer with
  checked append).  The encoder definitions below are therefore modelled from
  the spec (sections 4.3, 4.4 and 6), as marked on each definition.

Conventions of the embedding:
* bytes are `Nat` values (< 256 in well-formed streams); a byte stream is a
  `List Byte`;
* the modelled host is little-endian (as on x86-64), so the "native" unpacker
  assembles integers little-endian and the byte-swapping unpacker assembles
  them big-endian;
* the platform `usize` is 64-bit, so `usize::try_from(u32)` never fails and is
  modelled as the identity;
* machine integers are `Nat`/`Int` with explicit bounds where overflow matters.
-/

/-- One byte of a stream. Well-formed streams hold values `< 256`. -/
abbrev Byte := Nat

/-- The four bytes of the 32-bit value `v` as laid out in the file: the
modelled host is little-endian, so native layout (`swap = false`) is
little-endian and the byte-swapped layout (`Packed::switch_endianness` in
`def.rs`) is big-endian. -/
def encU32 (swap : Bool) (v : Nat) : List Byte :=
  if swap then [v / 16777216 % 256, v / 65536 % 256, v / 256 % 256, v % 256]
  else [v % 256, v / 256 % 256, v / 65536 % 256, v / 16777216 % 256]

/-- The two bytes of the 16-bit value `v`, native (little-endian) or
byte-swapped (big-endian) layout. -/
def encU16 (swap : Bool) (v : Nat) : List Byte :=
  if swap then [v / 256 % 256, v % 256] else [v % 256, v / 256 % 256]

/-- Read a `u32` from the first four bytes of `l`: `swap = false` is the
native (little-endian) unpacker, `swap = true` reads the value and swaps its
bytes, i.e. assembles big-endian. -/
def decU32 (swap : Bool) (l : List Byte) : Nat :=
  if swap then l.getD 3 0 + 256 * (l.getD 2 0 + 256 * (l.getD 1 0 + 256 * l.getD 0 0))
  else l.getD 0 0 + 256 * (l.getD 1 0 + 256 * (l.getD 2 0 + 256 * l.getD 3 0))

/-- Read a `u16` from the first two bytes of `l`, natively or byte-swapped. -/
def decU16 (swap : Bool) (l : List Byte) : Nat :=
  if swap then l.getD 1 0 + 256 * l.getD 0 0
  else l.getD 0 0 + 256 * l.getD 1 0

/-- Reinterpret a `u32` bit pattern as an `i32` (the `thiszone` field). -/
def i32ofU32 (v : Nat) : Int :=
  if v < 2147483648 then (v : Int) else (v : Int) - 4294967296

/-- `PcapError` from `lib.rs`.  `Io(io::Error)` is collapsed to a single
constructor: the payload never influences control flow in the crate. -/
inductive PcapError where
  | ioError
  | invalidPacketSize
  | invalidDate
  | invalidFileHeader
deriving DecidableEq

/-- The in-memory absolute time (`std::time::SystemTime` in the default
build): a signed number of seconds since the Unix epoch plus a nanosecond
part.  A value produced by `SystemTime` arithmetic always has `nsec < 10^9`;
theorems state this bound explicitly where they need it. -/
structure Time where
  sec : Int
  nsec : Nat
deriving DecidableEq

/-- `CapturedPacket` from `lib.rs` (the borrowed `data` slice is modelled as
the list of bytes it denotes). -/
structure CapturedPacket where
  time : Time
  data : List Byte
  orig_len : Nat
deriving DecidableEq

/-- `FileOptions` from `lib.rs`. -/
structure FileOptions where
  snaplen : Nat
  linktype : Nat
  high_res_timestamps : Bool
  non_native_byte_order : Bool
deriving DecidableEq

/-- Fully parsed file header (`PcapFileHeader` in `def.rs`). -/
structure PcapFileHeader where
  ns_res : Bool
  need_byte_swap : Bool
  network : Nat
  utc_offset : Int
  snaplen : Nat
deriving DecidableEq

/-- Per-packet record header (`PcapRecordHeader` in `def.rs`). -/
structure PcapRecordHeader where
  ts_sec : Nat
  ts_usec : Nat
  incl_len : Nat
  orig_len : Nat
deriving DecidableEq

/-- The four magic numbers (`PcapMagic` in `def.rs`). -/
inductive PcapMagic where
  | normal
  | nanoSecondResolution
  | byteSwap
  | nanoSecondResolutionByteSwap
deriving DecidableEq

/-- The `u32` value of each magic variant (`byteSwap` variants are the
`swap_bytes()` of the plain ones, as in `def.rs`). -/
def PcapMagic.toU32 : PcapMagic → Nat
  | .normal => 0xa1b2c3d4
  | .nanoSecondResolution => 0xa1b23c4d
  | .byteSwap => 0xd4c3b2a1
  | .nanoSecondResolutionByteSwap => 0x4d3cb2a1

/-- `TryFrom<u32> for PcapMagic` from `def.rs`. -/
def PcapMagic.ofU32 (v : Nat) : Option PcapMagic :=
  if v = 0xa1b2c3d4 then some .normal
  else if v = 0xa1b23c4d then some .nanoSecondResolution
  else if v = 0xd4c3b2a1 then some .byteSwap
  else if v = 0x4d3cb2a1 then some .nanoSecondResolutionByteSwap
  else none

/-- `PcapMagic::need_byte_swap` from `def.rs`. -/
def PcapMagic.need_byte_swap : PcapMagic → Bool
  | .normal | .nanoSecondResolution => false
  | .byteSwap | .nanoSecondResolutionByteSwap => true

/-- `PcapMagic::ns_res` from `def.rs`. -/
def PcapMagic.ns_res : PcapMagic → Bool
  | .normal | .byteSwap => false
  | .nanoSecondResolution | .nanoSecondResolutionByteSwap => true

/-- `make_time` from `def.rs` (default build, no `time` feature):
`UNIX_EPOCH.checked_add(Duration::new(sec.try_into().ok()?, nsec))`.  The
`i64 → u64` conversion fails exactly for negative seconds; on the modelled
64-bit Linux platform `SystemTime` represents every epoch offset up to
`i64::MAX` seconds, so the `checked_add` itself never fails for a
non-negative `i64` count of seconds. -/
def make_time (sec : Int) (nsec : Nat) : Option Time :=
  if 0 ≤ sec then some ⟨sec, nsec⟩ else none

/-- `PcapRecordHeader::get_time` from `def.rs`: the sub-second field is taken
directly as nanoseconds under nanosecond resolution, otherwise multiplied by
1000 with `checked_mul`; seconds are `i64::from(ts_sec) + i64::from(utc_offset)`
with `checked_add` (the explicit `i64` range test below); a normalized
nanosecond value `≥ 10^9` is rejected. -/
def PcapRecordHeader.get_time (rh : PcapRecordHeader) (fh : PcapFileHeader) : Option Time :=
  match (if fh.ns_res then some rh.ts_usec
         else if rh.ts_usec * 1000 < 4294967296 then some (rh.ts_usec * 1000) else none) with
  | none => none
  | some nsec =>
    if -(9223372036854775808 : Int) ≤ (rh.ts_sec : Int) + fh.utc_offset ∧
        (rh.ts_sec : Int) + fh.utc_offset < 9223372036854775808 then
      if nsec < 1000000000 then make_time ((rh.ts_sec : Int) + fh.utc_offset) nsec
      else none
    else none

/-- Parse a 16-byte record header with the unpacker selected by `swap`
(`read.rs` chooses `NonNativeUnpacker` when `need_byte_swap`). -/
def parseRecordHeader (swap : Bool) (l : List Byte) : PcapRecordHeader :=
  { ts_sec := decU32 swap l
    ts_usec := decU32 swap (l.drop 4)
    incl_len := decU32 swap (l.drop 8)
    orig_len := decU32 swap (l.drop 12) }

/-- `TryFrom<PcapFileHeaderInFile> for PcapFileHeader` from `def.rs`, applied
to the raw 24 header bytes: resolve the magic from the natively-read first
word, byte-swap the remaining fields if it demands it, and require version
(2, 4).  `usize::try_from(snaplen)` never fails on the modelled 64-bit
platform.  `none` models `Err(())`. -/
def PcapFileHeader.ofBytes (s : List Byte) : Option PcapFileHeader :=
  match PcapMagic.ofU32 (decU32 false s) with
  | none => none
  | some m =>
    if decU16 m.need_byte_swap (s.drop 4) = 2 ∧ decU16 m.need_byte_swap (s.drop 6) = 4 then
      some { ns_res := m.ns_res
             need_byte_swap := m.need_byte_swap
             network := decU32 m.need_byte_swap (s.drop 20)
             utc_offset := i32ofU32 (decU32 m.need_byte_swap (s.drop 8))
             snaplen := decU32 m.need_byte_swap (s.drop 16) }
    else none

/-- State of a `PcapReader` over a byte-list reader: `header = none` models
`state: None` (exhausted); the reusable packet buffer enters the semantics
only through its length, which is always the header's `snaplen`. -/
structure ReaderState where
  header : Option PcapFileHeader
  stream : List Byte
deriving DecidableEq

/-- Outcome of one `PcapReader::next` call: `ok none` is EOF,
`ok (some p)` a packet, `err e` an error return, and `panicked` the
`self.state.as_mut().unwrap()` panic (reachable only when a record header is
successfully read while the state is already `None`). -/
inductive NextResult where
  | ok : Option CapturedPacket → NextResult
  | err : PcapError → NextResult
  | panicked
deriving DecidableEq

/-- `PcapReader::new` from `read.rs` over a byte-list reader: unpack 24 header
bytes (an incomplete header is an `Io` error), run the header validation of
`def.rs` (`InvalidFileHeader` on failure), reject `snaplen` above the
`0x60000000` DoS ceiling before the `vec![0; snaplen]` buffer is built, and
return the `FileOptions` digest together with the initial state. -/
def pcapNew (s : List Byte) : Except PcapError (FileOptions × ReaderState) :=
  if s.length < 24 then .error .ioError
  else
    match PcapFileHeader.ofBytes s with
    | none => .error .invalidFileHeader
    | some fh =>
      if 0x60000000 < fh.snaplen then .error .invalidFileHeader
      else .ok ({ snaplen := fh.snaplen
                  linktype := fh.network
                  high_res_timestamps := fh.ns_res
                  non_native_byte_order := fh.need_byte_swap },
                { header := some fh, stream := s.drop 24 })

/-- `PcapReader::next` from `read.rs` over a byte-list reader.  The record
header is unpacked with the byte order taken from the current state (native
when the state is `None`); any `UnexpectedEof` there clears the state and
returns `Ok(None)` — over a list reader this is exactly the case of fewer
than 16 remaining bytes, all of which `read_exact` consumes.  Then
`size_to_read = min(buffer length, incl_len)` payload bytes are read
(`read_exact`, whose EOF is a fatal `Io` error here), any `incl_len`
overshoot is dropped (`io::copy` of a `take`, which stops quietly at EOF),
and the timestamp is decoded, `None` surfacing as `InvalidDate`.
`usize::try_from` on `incl_len`/`orig_len` never fails on 64-bit. -/
def pcapNext (st : ReaderState) : NextResult × ReaderState :=
  let swap := match st.header with
    | some fh => fh.need_byte_swap
    | none => false
  if st.stream.length < 16 then
    (.ok none, { header := none, stream := st.stream.drop 16 })
  else
    let rh := parseRecordHeader swap (st.stream.take 16)
    let s1 := st.stream.drop 16
    match st.header with
    | none => (.panicked, { header := none, stream := s1 })
    | some fh =>
      let sizeToRead := min fh.snaplen rh.incl_len
      if s1.length < sizeToRead then
        (.err .ioError, { header := some fh, stream := s1.drop sizeToRead })
      else
        let s3 := (s1.drop sizeToRead).drop (rh.incl_len - sizeToRead)
        match rh.get_time fh with
        | some t =>
          (.ok (some { time := t, data := s1.take sizeToRead, orig_len := rh.orig_len }),
           { header := some fh, stream := s3 })
        | none => (.err .invalidDate, { header := some fh, stream := s3 })

/-- Decode packets until clean EOF, with fuel: `none` on any error, panic or
fuel exhaustion, `some ps` when the stream decodes completely. -/
def readAll : Nat → ReaderState → Option (List CapturedPacket)
  | 0, _ => none
  | fuel + 1, st =>
    match pcapNext st with
    | (.ok none, _) => some []
    | (.ok (some p), st') => (readAll fuel st').map (fun l => p :: l)
    | (.err _, _) => none
    | (.panicked, _) => none

/-- The serialized file header (`PcapFileHeaderInFile` in `def.rs`). -/
structure PcapFileHeaderInFile where
  magic_num : Nat
  version_major : Nat
  version_minor : Nat
  thiszone : Int
  sigfigs : Nat
  snaplen : Nat
  network : Nat
deriving DecidableEq

/-- `PcapFileHeaderInFile::new` from `def.rs`: magic from the timestamp
resolution, version (2, 4), zero `thiszone`/`sigfigs`; fails (`None`) when
`snaplen` does not fit in `u32`. -/
def PcapFileHeaderInFile.new (opts : FileOptions) : Option PcapFileHeaderInFile :=
  if opts.snaplen < 4294967296 then
    some { magic_num := (if opts.high_res_timestamps then PcapMagic.nanoSecondResolution
                         else PcapMagic.normal).toU32
           version_major := 2
           version_minor := 4
           thiszone := 0
           sigfigs := 0
           snaplen := opts.snaplen
           network := opts.linktype }
  else none

/-- Reinterpret an `i32` as its `u32` bit pattern (for packing `thiszone`). -/
def u32ofI32 (z : Int) : Nat := (z % 4294967296).toNat

/-- Modelled from the spec (§4.4, §6; the crate's current `write.rs` is
missing from `src/`): pack the 24-byte file header in the byte order
requested by the options. -/
def packFileHeader (swap : Bool) (h : PcapFileHeaderInFile) : List Byte :=
  encU32 swap h.magic_num ++ encU16 swap h.version_major ++ encU16 swap h.version_minor ++
  encU32 swap (u32ofI32 h.thiszone) ++ encU32 swap h.sigfigs ++ encU32 swap h.snaplen ++
  encU32 swap h.network

/-- Modelled from the spec (§4.4 Create; the crate's current `write.rs` is
missing from `src/`): `PcapWriter::new` builds a validated file header
(`InvalidFileHeader` when `snaplen` does not fit the field) and writes it in
the requested byte order.  The result is the sink contents. -/
def pcapWriterNew (opts : FileOptions) : Except PcapError (List Byte) :=
  match PcapFileHeaderInFile.new opts with
  | none => .error .invalidFileHeader
  | some h => .ok (packFileHeader opts.non_native_byte_order h)

/-- Modelled from the spec (§4.3 `encode_time`; the crate's current
`write.rs` is missing from `src/`): seconds and sub-second component since
the epoch (`None` for a time before the epoch or seconds not fitting in 32
bits); the sub-second output is nanoseconds as-is under high resolution and
round-half-up division by 1000 (microseconds) otherwise. -/
def encode_time (high_res : Bool) (t : Time) : Option (Nat × Nat) :=
  if t.sec < 0 then none
  else if (4294967296 : Int) ≤ t.sec then none
  else some (t.sec.toNat, if high_res then t.nsec else (t.nsec + 500) / 1000)

/-- Modelled from the spec (§4.4 per-call `write`; the crate's current
`write.rs` is missing from `src/`): encode the time (`InvalidDate` on
failure), clamp `incl_len = min(data.len(), snaplen)`, require `incl_len`
and `orig_len` to fit their `u32` fields (`InvalidPacketSize` otherwise),
then append the record header in the configured byte order followed by
exactly `incl_len` payload bytes.  Returns the error, if any, together with
the resulting sink contents. -/
def pcapWrite (opts : FileOptions) (p : CapturedPacket) (sink : List Byte) :
    Option PcapError × List Byte :=
  match encode_time opts.high_res_timestamps p.time with
  | none => (some .invalidDate, sink)
  | some (sec, subsec) =>
    let len := min p.data.length opts.snaplen
    if 4294967296 ≤ len then (some .invalidPacketSize, sink)
    else if 4294967296 ≤ p.orig_len then (some .invalidPacketSize, sink)
    else
      let swap := opts.non_native_byte_order
      (none,
       sink ++ ((encU32 swap sec ++ encU32 swap subsec ++ encU32 swap len ++
                 encU32 swap p.orig_len) ++ p.data.take len))

/-- Write a list of packets in order, stopping at the first error (the loop
every caller of `PcapWriter::write` in the crate uses). -/
def writeAll (opts : FileOptions) : List CapturedPacket → List Byte → Option PcapError × List Byte
  | [], sink => (none, sink)
  | p :: ps, sink =>
    match pcapWrite opts p sink with
    | (none, sink') => writeAll opts ps sink'
    | (some e, sink') => (some e, sink')

/-- Create a file with `PcapWriter::new` and write all packets to it. -/
def pcapCreateAndWriteAll (opts : FileOptions) (ps : List CapturedPacket) :
    Except PcapError (List Byte) :=
  match pcapWriterNew opts with
  | .error e => .error e
  | .ok file0 =>
    match writeAll opts ps file0 with
    | (some e, _) => .error e
    | (none, file) => .ok file

/-- Modelled from the spec (§4.4 Append (checked); the crate's current
`write.rs` is missing from `src/`): seek to the start, decode the existing
file header through the Decoder path to recover the `FileFormatOptions`,
then seek to the end; subsequent writes append to the existing contents.
Returns the recovered options and the sink contents the writer will append
to. -/
def pcapAppendChecked (file : List Byte) : Except PcapError (FileOptions × List Byte) :=
  match pcapNew file with
  | .error e => .error e
  | .ok (opts, _) => .ok (opts, file)

/-- The packet `PcapReader` yields back for a packet written under `opts`:
payload and `orig_len` unchanged; the timestamp unchanged under high
resolution, rounded half-up to microseconds otherwise. -/
def readBack (opts : FileOptions) (p : CapturedPacket) : CapturedPacket :=
  { time := { sec := p.time.sec
              nsec := if opts.high_res_timestamps then p.time.nsec
                      else (p.time.nsec + 500) / 1000 * 1000 }
    data := p.data
    orig_len := p.orig_len }

/-- The file header `PcapReader` resolves for a file created under `opts`
(the writer packs `thiszone = 0`). -/
def fhOfOptions (opts : FileOptions) : PcapFileHeader :=
  { ns_res := opts.high_res_timestamps
    need_byte_swap := opts.non_native_byte_order
    network := opts.linktype
    utc_offset := 0
    snaplen := opts.snaplen }

/-- A packet the writer accepts and the reader reproduces (up to timestamp
rounding): payload within `snaplen`, `orig_len` fitting `u32`, a
representable timestamp whose seconds fit `u32`, and — when writing at
microsecond resolution — a nanosecond value that still rounds to below one
second. -/
def validPacket (opts : FileOptions) (p : CapturedPacket) : Prop :=
  p.data.length ≤ opts.snaplen ∧ p.orig_len < 4294967296 ∧
  0 ≤ p.time.sec ∧ p.time.sec < 4294967296 ∧ p.time.nsec < 1000000000 ∧
  (opts.high_res_timestamps = true ∨ p.time.nsec < 999999500)

instance (opts : FileOptions) (p : CapturedPacket) : Decidable (validPacket opts p) := by
  unfold validPacket; infer_instance

/-- Absolute nanosecond count of a time, for stating timestamp distances. -/
def timeNs (t : Time) : Int := t.sec * 1000000000 + t.nsec

/-- A reader whose `read` can signal end-of-stream and then yield data again
(io::Read explicitly allows this): a list of segments, where reads are served
from the head segment and reaching its end produces one `Ok(0)` (EOF) signal
after which reading continues in the next segment. -/
abbrev SegStream := List (List Byte)

/-- `Read::read_exact` of `n` bytes over a segmented reader: succeeds
consuming `n` bytes of the head segment if it has them; otherwise fails with
`UnexpectedEof`, consuming the rest of the head segment and its EOF signal. -/
def readExactSeg (n : Nat) (ss : SegStream) : Option (List Byte) × SegStream :=
  match ss with
  | [] => (none, [])
  | cur :: rest => if n ≤ cur.length then (some (cur.take n), cur.drop n :: rest) else (none, rest)

/-- `io::copy` out of a `take(n)` adapter over a segmented reader: drains up
to `n` bytes, stopping quietly at an EOF signal. -/
def dropSeg (n : Nat) (ss : SegStream) : SegStream :=
  match ss with
  | [] => []
  | cur :: rest => if n ≤ cur.length then cur.drop n :: rest else rest

/-- `PcapReader` state over a segmented reader. -/
structure SegReaderState where
  header : Option PcapFileHeader
  stream : SegStream
deriving DecidableEq

/-- `PcapReader::new` from `read.rs`, over a segmented reader (same code as
`pcapNew`, with `read_exact` replaced by its segmented semantics). -/
def pcapNewSeg (ss : SegStream) : Except PcapError (FileOptions × SegReaderState) :=
  match readExactSeg 24 ss with
  | (none, _) => .error .ioError
  | (some hdr, ss') =>
    match PcapFileHeader.ofBytes hdr with
    | none => .error .invalidFileHeader
    | some fh =>
      if 0x60000000 < fh.snaplen then .error .invalidFileHeader
      else .ok ({ snaplen := fh.snaplen
                  linktype := fh.network
                  high_res_timestamps := fh.ns_res
                  non_native_byte_order := fh.need_byte_swap },
                { header := some fh, stream := ss' })

/-- `PcapReader::next` from `read.rs`, over a segmented reader: the same
statement-for-statement embedding as `pcapNext`; in particular a successful
record-header read while the state is already `None` reaches
`self.state.as_mut().unwrap()` and panics. -/
def pcapNextSeg (st : SegReaderState) : NextResult × SegReaderState :=
  let swap := match st.header with
    | some fh => fh.need_byte_swap
    | none => false
  match readExactSeg 16 st.stream with
  | (none, ss') => (.ok none, { header := none, stream := ss' })
  | (some hdrBytes, ss') =>
    let rh := parseRecordHeader swap hdrBytes
    match st.header with
    | none => (.panicked, { header := none, stream := ss' })
    | some fh =>
      let sizeToRead := min fh.snaplen rh.incl_len
      match readExactSeg sizeToRead ss' with
      | (none, ss2) => (.err .ioError, { header := some fh, stream := ss2 })
      | (some buf, ss2) =>
        let ss3 := dropSeg (rh.incl_len - sizeToRead) ss2
        match rh.get_time fh with
        | some t =>
          (.ok (some { time := t, data := buf, orig_len := rh.orig_len }),
           { header := some fh, stream := ss3 })
        | none => (.err .invalidDate, { header := some fh, stream := ss3 })

/-! ## Byte-codec lemmas -/

theorem encU32_length (b : Bool) (v : Nat) : (encU32 b v).length = 4 := by
  cases b <;> simp [encU32]

theorem encU16_length (b : Bool) (v : Nat) : (encU16 b v).length = 2 := by
  cases b <;> simp [encU16]

theorem decU32_encU32 (b : Bool) (v : Nat) (r : List Byte) (h : v < 4294967296) :
    decU32 b (encU32 b v ++ r) = v := by
  cases b <;>
    simp only [encU32, decU32, if_true, if_false, Bool.false_eq_true, List.cons_append,
      List.nil_append, List.getD_cons_zero, List.getD_cons_succ] <;>
    omega

theorem decU16_encU16 (b : Bool) (v : Nat) (r : List Byte) (h : v < 65536) :
    decU16 b (encU16 b v ++ r) = v := by
  cases b <;>
    simp only [encU16, decU16, if_true, if_false, Bool.false_eq_true, List.cons_append,
      List.nil_append, List.getD_cons_zero, List.getD_cons_succ] <;>
    omega

theorem encU32_drop (b : Bool) (v : Nat) (r : List Byte) : (encU32 b v ++ r).drop 4 = r := by
  cases b <;> simp [encU32]

theorem encU16_drop (b : Bool) (v : Nat) (r : List Byte) : (encU16 b v ++ r).drop 2 = r := by
  cases b <;> simp [encU16]

/-- The 16 record-header bytes for the four `u32` fields. -/
def recHdrBytes (swap : Bool) (a b c d : Nat) : List Byte :=
  encU32 swap a ++ (encU32 swap b ++ (encU32 swap c ++ encU32 swap d))

theorem recHdrBytes_length (swap : Bool) (a b c d : Nat) :
    (recHdrBytes swap a b c d).length = 16 := by
  simp [recHdrBytes, encU32_length]

theorem parseRecordHeader_recHdrBytes (swap : Bool) (a b c d : Nat)
    (ha : a < 4294967296) (hb : b < 4294967296) (hc : c < 4294967296) (hd : d < 4294967296) :
    parseRecordHeader swap (recHdrBytes swap a b c d) = ⟨a, b, c, d⟩ := by
  have h4 : ∀ v r, decU32 swap (encU32 swap v ++ r) = decU32 swap (encU32 swap v ++ r) := fun _ _ => rfl
  have e1 : (recHdrBytes swap a b c d).drop 4 = encU32 swap b ++ (encU32 swap c ++ encU32 swap d) :=
    encU32_drop ..
  have e2 : ((recHdrBytes swap a b c d).drop 4).drop 4 = encU32 swap c ++ encU32 swap d := by
    rw [e1]; exact encU32_drop ..
  have e3 : (recHdrBytes swap a b c d).drop 8 = encU32 swap c ++ encU32 swap d := by
    rw [← e2, List.drop_drop]
  have e4 : (recHdrBytes swap a b c d).drop 12 = encU32 swap d := by
    have : ((recHdrBytes swap a b c d).drop 8).drop 4 = encU32 swap d := by
      rw [e3]; exact encU32_drop ..
    rw [← this, List.drop_drop]
  have hda : decU32 swap (recHdrBytes swap a b c d) = a := by
    unfold recHdrBytes; exact decU32_encU32 _ _ _ ha
  have hdb : decU32 swap ((recHdrBytes swap a b c d).drop 4) = b := by
    rw [e1]; exact decU32_encU32 _ _ _ hb
  have hdc : decU32 swap ((recHdrBytes swap a b c d).drop 8) = c := by
    rw [e3]; exact decU32_encU32 _ _ _ hc
  have hdd : decU32 swap ((recHdrBytes swap a b c d).drop 12) = d := by
    rw [e4, ← List.append_nil (encU32 swap d)]; exact decU32_encU32 _ _ _ hd
  simp [parseRecordHeader, hda, hdb, hdc, hdd]

/-! ## Decoder lemmas -/

/-- One `next` call on a stream holding a full record: the header is parsed
with the state's byte order, `min(snaplen, incl_len)` payload bytes are
delivered, any overshoot is dropped, and the stream is left exactly at
`rest`. -/
theorem pcapNext_master (fh : PcapFileHeader) (hdr payload rest : List Byte)
    (h16 : hdr.length = 16)
    (hpl : payload.length = (parseRecordHeader fh.need_byte_swap hdr).incl_len) :
    pcapNext ⟨some fh, hdr ++ (payload ++ rest)⟩ =
      match (parseRecordHeader fh.need_byte_swap hdr).get_time fh with
      | some t =>
        (.ok (some { time := t
                     data := payload.take (min fh.snaplen (parseRecordHeader fh.need_byte_swap hdr).incl_len)
                     orig_len := (parseRecordHeader fh.need_byte_swap hdr).orig_len }),
         ⟨some fh, rest⟩)
      | none => (.err .invalidDate, ⟨some fh, rest⟩) := by
  have hlen : (hdr ++ (payload ++ rest)).length = 16 + (payload.length + rest.length) := by
    simp [List.length_append, h16]
  have htake : (hdr ++ (payload ++ rest)).take 16 = hdr := List.take_left' h16
  have hdrop : (hdr ++ (payload ++ rest)).drop 16 = payload ++ rest := List.drop_left' h16
  have hstr : min fh.snaplen (parseRecordHeader fh.need_byte_swap hdr).incl_len ≤ payload.length := by
    rw [hpl]; exact Nat.min_le_right _ _
  have htake2 : (payload ++ rest).take (min fh.snaplen (parseRecordHeader fh.need_byte_swap hdr).incl_len) =
      payload.take (min fh.snaplen (parseRecordHeader fh.need_byte_swap hdr).incl_len) := by
    rw [List.take_append_eq_append_take, Nat.sub_eq_zero_of_le hstr]
    simp
  have hdrop2 : (payload ++ rest).drop (min fh.snaplen (parseRecordHeader fh.need_byte_swap hdr).incl_len) =
      payload.drop (min fh.snaplen (parseRecordHeader fh.need_byte_swap hdr).incl_len) ++ rest := by
    rw [List.drop_append_eq_append_drop, Nat.sub_eq_zero_of_le hstr]
    simp
  have hdrop3 : (payload.drop (min fh.snaplen (parseRecordHeader fh.need_byte_swap hdr).incl_len) ++ rest).drop
      ((parseRecordHeader fh.need_byte_swap hdr).incl_len -
        min fh.snaplen (parseRecordHeader fh.need_byte_swap hdr).incl_len) = rest := by
    apply List.drop_left'
    rw [List.length_drop, hpl]
  have hnlt : ¬ (hdr ++ (payload ++ rest)).length < 16 := by omega
  have hnlt2 : ¬ ((hdr ++ (payload ++ rest)).drop 16).length <
      min fh.snaplen (parseRecordHeader fh.need_byte_swap hdr).incl_len := by
    rw [hdrop, List.length_append]
    omega
  unfold pcapNext
  simp only [htake, hdrop, if_neg hnlt, if_neg hnlt2]
  rw [hdrop] at hnlt2
  rw [if_neg hnlt2, htake2, hdrop2, hdrop3]

/-! ## Round-trip lemmas for written records -/

/-- The bytes `pcapWrite` appends for an accepted packet. -/
def recordBytes (opts : FileOptions) (p : CapturedPacket) : List Byte :=
  recHdrBytes opts.non_native_byte_order p.time.sec.toNat
    (if opts.high_res_timestamps then p.time.nsec else (p.time.nsec + 500) / 1000)
    (min p.data.length opts.snaplen) p.orig_len ++
  p.data.take (min p.data.length opts.snaplen)

theorem pcapWrite_ok (opts : FileOptions) (p : CapturedPacket) (sink : List Byte)
    (h0 : 0 ≤ p.time.sec) (h32 : p.time.sec < 4294967296)
    (hlen : min p.data.length opts.snaplen < 4294967296) (horig : p.orig_len < 4294967296) :
    pcapWrite opts p sink = (none, sink ++ recordBytes opts p) := by
  unfold pcapWrite encode_time
  rw [if_neg (by omega), if_neg (by omega)]
  simp only
  rw [if_neg (by omega), if_neg (by omega)]
  simp [recordBytes, recHdrBytes, List.append_assoc]

/-- Decoding the time of a record header the writer produced for a valid
packet yields the packet's time, rounded to microseconds when writing at
microsecond resolution. -/
theorem get_time_written (opts : FileOptions) (t : Time) (c d : Nat)
    (h0 : 0 ≤ t.sec) (h32 : t.sec < 4294967296) (hn : t.nsec < 1000000000)
    (hb : opts.high_res_timestamps = true ∨ t.nsec < 999999500) :
    PcapRecordHeader.get_time
      ⟨t.sec.toNat, (if opts.high_res_timestamps then t.nsec else (t.nsec + 500) / 1000), c, d⟩
      (fhOfOptions opts) =
    some ⟨t.sec, if opts.high_res_timestamps then t.nsec else (t.nsec + 500) / 1000 * 1000⟩ := by
  have hsec : ((t.sec.toNat : Nat) : Int) + (fhOfOptions opts).utc_offset = t.sec := by
    simp [fhOfOptions, Int.toNat_of_nonneg h0]
  unfold PcapRecordHeader.get_time
  cases hhr : opts.high_res_timestamps with
  | true =>
    simp only [fhOfOptions, hhr, if_true]
    simp only [make_time, hsec]
    rw [if_pos (by constructor <;> omega), if_pos (by omega), if_pos (by omega)]
    simp [Int.toNat_of_nonneg h0]
  | false =>
    have hb' : t.nsec < 999999500 := by
      rcases hb with hb | hb
      · rw [hhr] at hb; exact absurd hb (by simp)
      · exact hb
    have hq : (t.nsec + 500) / 1000 ≤ 999999 := by omega
    simp only [fhOfOptions, hhr, if_false, Bool.false_eq_true]
    rw [if_pos (by omega)]
    simp only [make_time]
    rw [if_pos (by constructor <;> omega), if_pos (by omega), if_pos (by omega)]
    simp [Int.toNat_of_nonneg h0]

/-- A record the writer produced for a valid packet decodes back to
`readBack opts p` and leaves the stream at `rest`. -/
theorem pcapNext_recordBytes (opts : FileOptions) (p : CapturedPacket) (rest : List Byte)
    (hv : validPacket opts p) (hsnap : opts.snaplen < 4294967296) :
    pcapNext ⟨some (fhOfOptions opts), recordBytes opts p ++ rest⟩ =
      (.ok (some (readBack opts p)), ⟨some (fhOfOptions opts), rest⟩) := by
  obtain ⟨hd, ho, h0, h32, hn, hb⟩ := hv
  have hmin : min p.data.length opts.snaplen = p.data.length := Nat.min_eq_left hd
  have hsub : (if opts.high_res_timestamps then p.time.nsec else (p.time.nsec + 500) / 1000) <
      4294967296 := by
    cases opts.high_res_timestamps <;> simp <;> omega
  have hparse : parseRecordHeader (fhOfOptions opts).need_byte_swap
      (recHdrBytes opts.non_native_byte_order p.time.sec.toNat
        (if opts.high_res_timestamps then p.time.nsec else (p.time.nsec + 500) / 1000)
        (min p.data.length opts.snaplen) p.orig_len) =
      ⟨p.time.sec.toNat, (if opts.high_res_timestamps then p.time.nsec else (p.time.nsec + 500) / 1000),
       min p.data.length opts.snaplen, p.orig_len⟩ := by
    show parseRecordHeader opts.non_native_byte_order _ = _
    exact parseRecordHeader_recHdrBytes _ _ _ _ _ (by omega) hsub (by omega) (by omega)
  have htake : p.data.take (min p.data.length opts.snaplen) = p.data := by
    rw [hmin, List.take_length]
  have hmaster := pcapNext_master (fhOfOptions opts)
    (recHdrBytes opts.non_native_byte_order p.time.sec.toNat
      (if opts.high_res_timestamps then p.time.nsec else (p.time.nsec + 500) / 1000)
      (min p.data.length opts.snaplen) p.orig_len)
    p.data rest (recHdrBytes_length ..) (by rw [hparse, hmin])
  have hstream : recordBytes opts p ++ rest =
      recHdrBytes opts.non_native_byte_order p.time.sec.toNat
        (if opts.high_res_timestamps then p.time.nsec else (p.time.nsec + 500) / 1000)
        (min p.data.length opts.snaplen) p.orig_len ++ (p.data ++ rest) := by
    rw [recordBytes, htake, List.append_assoc]
  rw [hstream, hmaster, hparse]
  have hgt := get_time_written opts p.time (min p.data.length opts.snaplen) p.orig_len h0 h32 hn hb
  simp only [hgt]
  have hmin2 : min (fhOfOptions opts).snaplen (min p.data.length opts.snaplen) = p.data.length := by
    show min opts.snaplen (min p.data.length opts.snaplen) = p.data.length
    omega
  rw [hmin2, List.take_length]
  rfl


/-- The concatenated record bytes a writer produces for a packet list. -/
def recordsBytes (opts : FileOptions) (ps : List CapturedPacket) : List Byte :=
  (ps.map (recordBytes opts)).flatten

theorem writeAll_ok (opts : FileOptions) (ps : List CapturedPacket) (sink : List Byte)
    (hv : ∀ p ∈ ps, validPacket opts p) (hsnap : opts.snaplen < 4294967296) :
    writeAll opts ps sink = (none, sink ++ recordsBytes opts ps) := by
  induction ps generalizing sink with
  | nil => simp [writeAll, recordsBytes]
  | cons p ps ih =>
    obtain ⟨hd, ho, h0, h32, hn, hb⟩ := hv p (List.mem_cons_self ..)
    have hw := pcapWrite_ok opts p sink h0 h32 (by omega) ho
    simp only [writeAll, hw]
    rw [ih _ (fun q hq => hv q (List.mem_cons_of_mem _ hq))]
    simp [recordsBytes, List.append_assoc]

theorem readAll_recordsBytes (opts : FileOptions) (ps : List CapturedPacket)
    (hv : ∀ p ∈ ps, validPacket opts p) (hsnap : opts.snaplen < 4294967296) :
    readAll (ps.length + 1) ⟨some (fhOfOptions opts), recordsBytes opts ps⟩ =
      some (ps.map (readBack opts)) := by
  induction ps with
  | nil => simp [readAll, recordsBytes, pcapNext]
  | cons p ps ih =>
    have hvp := hv p (List.mem_cons_self ..)
    have hstep := pcapNext_recordBytes opts p (recordsBytes opts ps) hvp hsnap
    have hjoin : recordsBytes opts (p :: ps) = recordBytes opts p ++ recordsBytes opts ps := by
      simp [recordsBytes]
    rw [List.length_cons, hjoin, readAll, hstep]
    show Option.map (fun l => readBack opts p :: l)
        (readAll (ps.length + 1) ⟨some (fhOfOptions opts), recordsBytes opts ps⟩) =
      some (List.map (readBack opts) (p :: ps))
    rw [ih (fun q hq => hv q (List.mem_cons_of_mem _ hq))]
    simp

/-! ## File-header round trip -/

/-- The 24 header bytes the writer emits for `opts` (`PcapFileHeaderInFile::new`
packed in the requested byte order). -/
def headerBytes (opts : FileOptions) : List Byte :=
  packFileHeader opts.non_native_byte_order
    { magic_num := (if opts.high_res_timestamps then PcapMagic.nanoSecondResolution
                    else PcapMagic.normal).toU32
      version_major := 2
      version_minor := 4
      thiszone := 0
      sigfigs := 0
      snaplen := opts.snaplen
      network := opts.linktype }

theorem pcapWriterNew_eq (opts : FileOptions) (h : opts.snaplen < 4294967296) :
    pcapWriterNew opts = .ok (headerBytes opts) := by
  unfold pcapWriterNew PcapFileHeaderInFile.new
  rw [if_pos h]
  rfl

theorem headerBytes_length (opts : FileOptions) : (headerBytes opts).length = 24 := by
  simp [headerBytes, packFileHeader, encU32_length, encU16_length]

/-- Value obtained by reading a natively packed 32-bit value with the
byte-swapping unpacker (i.e. `u32::swap_bytes`). -/
def swap32 (v : Nat) : Nat :=
  v / 16777216 % 256 + 256 * (v / 65536 % 256 + 256 * (v / 256 % 256 + 256 * (v % 256)))

theorem decU32_false_encU32_true (v : Nat) (r : List Byte) :
    decU32 false (encU32 true v ++ r) = swap32 v := by
  simp only [encU32, decU32, swap32, if_true, if_false, Bool.false_eq_true, List.cons_append,
    List.nil_append, List.getD_cons_zero, List.getD_cons_succ]

theorem headerBytes_append (opts : FileOptions) (rest : List Byte) :
    headerBytes opts ++ rest =
      encU32 opts.non_native_byte_order
          (if opts.high_res_timestamps then 0xa1b23c4d else 0xa1b2c3d4) ++
        (encU16 opts.non_native_byte_order 2 ++ (encU16 opts.non_native_byte_order 4 ++
          (encU32 opts.non_native_byte_order 0 ++ (encU32 opts.non_native_byte_order 0 ++
            (encU32 opts.non_native_byte_order opts.snaplen ++
              (encU32 opts.non_native_byte_order opts.linktype ++ rest)))))) := by
  have h0 : u32ofI32 0 = 0 := by norm_num [u32ofI32]
  cases h : opts.high_res_timestamps <;>
    simp [headerBytes, packFileHeader, PcapMagic.toU32, h0, h, List.append_assoc]

/-- Parsing a packed header with a valid magic recovers all fields. -/
theorem ofBytes_packedHeader (bo : Bool) (m sn lt : Nat) (rest : List Byte) (mg : PcapMagic)
    (hmg : PcapMagic.ofU32 (decU32 false (encU32 bo m ++ (encU16 bo 2 ++ (encU16 bo 4 ++
      (encU32 bo 0 ++ (encU32 bo 0 ++ (encU32 bo sn ++ (encU32 bo lt ++ rest)))))))) = some mg)
    (hbo : mg.need_byte_swap = bo)
    (hsn : sn < 4294967296) (hlt : lt < 4294967296) :
    PcapFileHeader.ofBytes (encU32 bo m ++ (encU16 bo 2 ++ (encU16 bo 4 ++
      (encU32 bo 0 ++ (encU32 bo 0 ++ (encU32 bo sn ++ (encU32 bo lt ++ rest))))))) =
      some ⟨mg.ns_res, bo, lt, 0, sn⟩ := by
  set s := encU32 bo m ++ (encU16 bo 2 ++ (encU16 bo 4 ++
    (encU32 bo 0 ++ (encU32 bo 0 ++ (encU32 bo sn ++ (encU32 bo lt ++ rest)))))) with hs
  have d4 : s.drop 4 = encU16 bo 2 ++ (encU16 bo 4 ++
      (encU32 bo 0 ++ (encU32 bo 0 ++ (encU32 bo sn ++ (encU32 bo lt ++ rest))))) := by
    rw [hs]; exact List.drop_left' (encU32_length ..)
  have d6 : s.drop 6 = encU16 bo 4 ++
      (encU32 bo 0 ++ (encU32 bo 0 ++ (encU32 bo sn ++ (encU32 bo lt ++ rest)))) := by
    rw [hs, ← List.append_assoc]
    exact List.drop_left' (by simp [encU32_length, encU16_length])
  have d8 : s.drop 8 = encU32 bo 0 ++ (encU32 bo 0 ++ (encU32 bo sn ++ (encU32 bo lt ++ rest))) := by
    rw [hs, ← List.append_assoc, ← List.append_assoc]
    exact List.drop_left' (by simp [encU32_length, encU16_length])
  have d16 : s.drop 16 = encU32 bo sn ++ (encU32 bo lt ++ rest) := by
    rw [hs, ← List.append_assoc, ← List.append_assoc, ← List.append_assoc, ← List.append_assoc]
    exact List.drop_left' (by simp [encU32_length, encU16_length])
  have d20 : s.drop 20 = encU32 bo lt ++ rest := by
    rw [hs, ← List.append_assoc, ← List.append_assoc, ← List.append_assoc, ← List.append_assoc,
      ← List.append_assoc]
    exact List.drop_left' (by simp [encU32_length, encU16_length])
  unfold PcapFileHeader.ofBytes
  rw [hmg]
  simp only
  rw [hbo, d4, d6, d8, d16, d20, decU16_encU16 _ _ _ (by norm_num),
    decU16_encU16 _ _ _ (by norm_num), decU32_encU32 bo 0 _ (by norm_num),
    decU32_encU32 bo sn _ hsn, decU32_encU32 bo lt _ hlt]
  rw [if_pos ⟨rfl, rfl⟩]
  norm_num [i32ofU32]

theorem ofBytes_headerBytes (opts : FileOptions) (rest : List Byte)
    (hsnap : opts.snaplen < 4294967296) (hlink : opts.linktype < 4294967296) :
    PcapFileHeader.ofBytes (headerBytes opts ++ rest) = some (fhOfOptions opts) := by
  obtain ⟨sn, lt, hr, bo⟩ := opts
  have hsn : sn < 4294967296 := hsnap
  have hlt : lt < 4294967296 := hlink
  rw [headerBytes_append]
  cases hr <;> cases bo
  · exact ofBytes_packedHeader false 0xa1b2c3d4 sn lt rest .normal
      (by rw [decU32_encU32 _ _ _ (by norm_num)]; decide) rfl hsn hlt
  · exact ofBytes_packedHeader true 0xa1b2c3d4 sn lt rest .byteSwap
      (by rw [decU32_false_encU32_true]; decide) rfl hsn hlt
  · exact ofBytes_packedHeader false 0xa1b23c4d sn lt rest .nanoSecondResolution
      (by rw [decU32_encU32 _ _ _ (by norm_num)]; decide) rfl hsn hlt
  · exact ofBytes_packedHeader true 0xa1b23c4d sn lt rest .nanoSecondResolutionByteSwap
      (by rw [decU32_false_encU32_true]; decide) rfl hsn hlt

theorem pcapNew_headerBytes (opts : FileOptions) (rest : List Byte)
    (hsnap : opts.snaplen ≤ 0x60000000) (hlink : opts.linktype < 4294967296) :
    pcapNew (headerBytes opts ++ rest) = .ok (opts, ⟨some (fhOfOptions opts), rest⟩) := by
  have hlen : (headerBytes opts ++ rest).length = 24 + rest.length := by
    simp [List.length_append, headerBytes_length]
  have hob := ofBytes_headerBytes opts rest (by omega) hlink
  have hdrop : (headerBytes opts ++ rest).drop 24 = rest :=
    List.drop_left' (headerBytes_length opts)
  unfold pcapNew
  rw [if_neg (by omega), hob]
  simp only
  rw [if_neg (show ¬ 0x60000000 < (fhOfOptions opts).snaplen from
        show ¬ 0x60000000 < opts.snaplen by omega),
    hdrop]
  obtain ⟨sn, lt, hr, bo⟩ := opts
  rfl

/-! ## Time-decoding characterization -/

/-- Closed form of `get_time`: it fails exactly on multiply overflow, `i64`
add overflow, an out-of-range normalized nanosecond value, or a time before
the epoch; otherwise it returns the offset-adjusted seconds with the
normalized nanoseconds. -/
theorem get_time_char (rh : PcapRecordHeader) (fh : PcapFileHeader) :
    rh.get_time fh =
      (if (fh.ns_res = false ∧ 4294967296 ≤ rh.ts_usec * 1000) ∨
          ¬(-(9223372036854775808 : Int) ≤ (rh.ts_sec : Int) + fh.utc_offset ∧
             (rh.ts_sec : Int) + fh.utc_offset < 9223372036854775808) ∨
          1000000000 ≤ (if fh.ns_res then rh.ts_usec else rh.ts_usec * 1000) ∨
          (rh.ts_sec : Int) + fh.utc_offset < 0
       then none
       else some ⟨(rh.ts_sec : Int) + fh.utc_offset,
                  if fh.ns_res then rh.ts_usec else rh.ts_usec * 1000⟩) := by
  unfold PcapRecordHeader.get_time make_time
  cases hns : fh.ns_res <;>
    simp only [hns, if_true, if_false, Bool.false_eq_true, Bool.true_eq_false, false_and,
      true_and, false_or]
  · by_cases hmul : rh.ts_usec * 1000 < 4294967296
    · rw [if_pos hmul]
      simp only
      by_cases hbd : -(9223372036854775808 : Int) ≤ (rh.ts_sec : Int) + fh.utc_offset ∧
          (rh.ts_sec : Int) + fh.utc_offset < 9223372036854775808
      · rw [if_pos hbd]
        by_cases hlt : rh.ts_usec * 1000 < 1000000000
        · rw [if_pos hlt]
          by_cases hz : (0 : Int) ≤ (rh.ts_sec : Int) + fh.utc_offset
          · rw [if_pos hz, if_neg (by omega)]
          · rw [if_neg hz, if_pos (by omega)]
        · rw [if_neg hlt, if_pos (by omega)]
      · rw [if_neg hbd, if_pos (by omega)]
    · rw [if_neg hmul]
      simp only
      rw [if_pos (by omega)]
  · by_cases hbd : -(9223372036854775808 : Int) ≤ (rh.ts_sec : Int) + fh.utc_offset ∧
        (rh.ts_sec : Int) + fh.utc_offset < 9223372036854775808
    · rw [if_pos hbd]
      by_cases hlt : rh.ts_usec < 1000000000
      · rw [if_pos hlt]
        by_cases hz : (0 : Int) ≤ (rh.ts_sec : Int) + fh.utc_offset
        · rw [if_pos hz, if_neg (by omega)]
        · rw [if_neg hz, if_pos (by omega)]
      · rw [if_neg hlt, if_pos (by omega)]
    · rw [if_neg hbd, if_pos (by omega)]

/-- C4: `get_time` uses the sub-second field directly as nanoseconds under
nanosecond resolution and multiplies it by 1000 with an overflow check
otherwise; seconds are `ts_sec + utc_offset` under a checked add; the result
is `None` — surfaced by `PcapReader::next` as `InvalidDate` — exactly when
the multiply overflows, the checked add overflows, the normalized nanosecond
value is at least 10^9, or the resulting absolute time is unrepresentable
(before the epoch). -/
theorem rpcap_c4_get_time (rh : PcapRecordHeader) (fh : PcapFileHeader) :
    (∀ t, rh.get_time fh = some t →
        t.sec = (rh.ts_sec : Int) + fh.utc_offset ∧
        t.nsec = (if fh.ns_res then rh.ts_usec else rh.ts_usec * 1000)) ∧
    (rh.get_time fh = none ↔
      ((fh.ns_res = false ∧ 4294967296 ≤ rh.ts_usec * 1000) ∨
       ¬(-(9223372036854775808 : Int) ≤ (rh.ts_sec : Int) + fh.utc_offset ∧
          (rh.ts_sec : Int) + fh.utc_offset < 9223372036854775808) ∨
       1000000000 ≤ (if fh.ns_res then rh.ts_usec else rh.ts_usec * 1000) ∨
       (rh.ts_sec : Int) + fh.utc_offset < 0)) ∧
    (∀ (hdr payload rest : List Byte), hdr.length = 16 →
      parseRecordHeader fh.need_byte_swap hdr = rh →
      payload.length = rh.incl_len →
      rh.get_time fh = none →
      pcapNext ⟨some fh, hdr ++ (payload ++ rest)⟩ = (.err .invalidDate, ⟨some fh, rest⟩)) := by
  have hmaster : ∀ (hdr payload rest : List Byte), hdr.length = 16 →
      parseRecordHeader fh.need_byte_swap hdr = rh →
      payload.length = rh.incl_len →
      rh.get_time fh = none →
      pcapNext ⟨some fh, hdr ++ (payload ++ rest)⟩ = (.err .invalidDate, ⟨some fh, rest⟩) := by
    intro hdr payload rest h16 hparse hpl hnone
    have hm := pcapNext_master fh hdr payload rest h16 (by rw [hparse]; exact hpl)
    rw [hm, hparse, hnone]
  have hchar := get_time_char rh fh
  by_cases hc : ((fh.ns_res = false ∧ 4294967296 ≤ rh.ts_usec * 1000) ∨
      ¬(-(9223372036854775808 : Int) ≤ (rh.ts_sec : Int) + fh.utc_offset ∧
         (rh.ts_sec : Int) + fh.utc_offset < 9223372036854775808) ∨
      1000000000 ≤ (if fh.ns_res then rh.ts_usec else rh.ts_usec * 1000) ∨
      (rh.ts_sec : Int) + fh.utc_offset < 0)
  · rw [if_pos hc] at hchar
    refine ⟨?_, ?_, hmaster⟩
    · intro t ht
      rw [hchar] at ht
      exact absurd ht (by simp)
    · rw [hchar]
      simp only [true_iff, iff_true, eq_self_iff_true]
      tauto
  · rw [if_neg hc] at hchar
    refine ⟨?_, ?_, hmaster⟩
    · intro t ht
      rw [hchar] at ht
      have h2 := Option.some.inj ht
      exact ⟨by rw [← h2], by rw [← h2]⟩
    · rw [hchar]
      exact iff_of_false (by simp) hc

/-- C2: a record whose declared `incl_len` exceeds the buffer capacity (the
header `snaplen`) is returned successfully with exactly
`min(incl_len, snaplen) = snaplen` payload bytes, the remaining
`incl_len - snaplen` bytes are consumed and discarded, and the stream is
left exactly at the following record. -/
theorem rpcap_c2_truncation (fh : PcapFileHeader) (hdr payload rest : List Byte) (t : Time)
    (h16 : hdr.length = 16)
    (hpl : payload.length = (parseRecordHeader fh.need_byte_swap hdr).incl_len)
    (hover : fh.snaplen < (parseRecordHeader fh.need_byte_swap hdr).incl_len)
    (ht : (parseRecordHeader fh.need_byte_swap hdr).get_time fh = some t) :
    min (parseRecordHeader fh.need_byte_swap hdr).incl_len fh.snaplen = fh.snaplen ∧
    pcapNext ⟨some fh, hdr ++ (payload ++ rest)⟩ =
      (.ok (some { time := t
                   data := payload.take (min (parseRecordHeader fh.need_byte_swap hdr).incl_len fh.snaplen)
                   orig_len := (parseRecordHeader fh.need_byte_swap hdr).orig_len }),
       ⟨some fh, rest⟩) := by
  refine ⟨by omega, ?_⟩
  have hm := pcapNext_master fh hdr payload rest h16 hpl
  rw [hm, ht]
  rw [Nat.min_comm (parseRecordHeader fh.need_byte_swap hdr).incl_len fh.snaplen]

/-- C3: with a complete 24-byte header available, `PcapReader::new` fails
with `InvalidFileHeader` exactly when the natively-read magic is not one of
the four known values, the (byte-swap-corrected) version pair is not
`(2, 4)`, or the (byte-swap-corrected) `snaplen` exceeds the `0x60000000`
safety ceiling; the ceiling test happens before the packet buffer is
created. -/
theorem rpcap_c3_invalid_header (s : List Byte) (h24 : 24 ≤ s.length) :
    pcapNew s = .error .invalidFileHeader ↔
      (PcapMagic.ofU32 (decU32 false s) = none ∨
       ∃ m, PcapMagic.ofU32 (decU32 false s) = some m ∧
         (¬(decU16 m.need_byte_swap (s.drop 4) = 2 ∧ decU16 m.need_byte_swap (s.drop 6) = 4) ∨
          0x60000000 < decU32 m.need_byte_swap (s.drop 16))) := by
  unfold pcapNew PcapFileHeader.ofBytes
  rw [if_neg (by omega)]
  cases hofm : PcapMagic.ofU32 (decU32 false s) with
  | none => simp
  | some m =>
    simp only
    by_cases hver : decU16 m.need_byte_swap (s.drop 4) = 2 ∧ decU16 m.need_byte_swap (s.drop 6) = 4
    · rw [if_pos hver]
      simp only
      by_cases hsn : 0x60000000 < decU32 m.need_byte_swap (s.drop 16)
      · rw [if_pos hsn]
        exact iff_of_true rfl (Or.inr ⟨m, rfl, Or.inr hsn⟩)
      · rw [if_neg hsn]
        refine iff_of_false (by simp) ?_
        rintro (h | ⟨m', hm', hbad | hbad⟩)
        · exact absurd h (by simp)
        · exact hbad (by obtain ⟨rfl⟩ := Option.some_injective _ hm'; exact hver)
        · obtain ⟨rfl⟩ := Option.some_injective _ hm'
          exact hsn hbad
    · rw [if_neg hver]
      exact iff_of_true rfl (Or.inr ⟨m, rfl, Or.inl hver⟩)

/-- C8 (amended): every packet `next` returns has `data.len() ≤ snaplen`
(resolved from the file header), and `data.len() ≤ orig_len` holds whenever
the record's declared `incl_len` does not exceed its declared `orig_len`
(the code performs no such validation, so a record with
`incl_len > orig_len` yields a packet violating `data.len() ≤ orig_len`). -/
theorem rpcap_c8_amended (st : ReaderState) (fh : PcapFileHeader) (p : CapturedPacket)
    (st' : ReaderState) (hh : st.header = some fh)
    (hn : pcapNext st = (.ok (some p), st')) :
    p.data.length ≤ fh.snaplen ∧
    ((parseRecordHeader fh.need_byte_swap (st.stream.take 16)).incl_len ≤ p.orig_len →
      p.data.length ≤ p.orig_len) := by
  unfold pcapNext at hn
  rw [hh] at hn
  simp only at hn
  split at hn
  · exact absurd (Prod.ext_iff.mp hn).1 (by simp)
  · split at hn
    · exact absurd (Prod.ext_iff.mp hn).1 (by simp)
    · split at hn
      · have h1 := (Prod.ext_iff.mp hn).1
        obtain ⟨rfl⟩ := Option.some_injective _ (NextResult.ok.inj h1)
        constructor
        · simp only [List.length_take]
          omega
        · intro hio
          dsimp only at hio ⊢
          simp only [List.length_take]
          have : min fh.snaplen (parseRecordHeader fh.need_byte_swap (st.stream.take 16)).incl_len ≤
              (parseRecordHeader fh.need_byte_swap (st.stream.take 16)).incl_len :=
            Nat.min_le_right _ _
          omega
      · exact absurd (Prod.ext_iff.mp hn).1 (by simp)

/-- C7 (amended): over a reader that keeps signalling end-of-stream once
exhausted (as a byte-slice reader does), hitting end-of-stream with zero
bytes at the start of a record header returns the terminal `Ok(None)` and
clears the state, and every further call again returns `Ok(None)` without
error or panic. -/
theorem rpcap_c7_exhaustion :
    (∀ fh : PcapFileHeader, pcapNext ⟨some fh, []⟩ = (.ok none, ⟨none, []⟩)) ∧
    (∀ n : Nat, (fun st => (pcapNext st).2)^[n] ⟨none, ([] : List Byte)⟩ = ⟨none, []⟩) ∧
    (pcapNext ⟨none, ([] : List Byte)⟩).1 = .ok none := by
  refine ⟨fun fh => rfl, ?_, rfl⟩
  intro n
  induction n with
  | zero => rfl
  | succ n ih => rw [Function.iterate_succ_apply, show (pcapNext ⟨none, ([] : List Byte)⟩).2 = ⟨none, []⟩ from rfl, ih]

/-- C5: a packet whose payload exceeds the configured `snaplen` is written
successfully — oversize is never by itself an error — with the stored length
clamped to `incl_len = min(data.len(), snaplen) = snaplen` and the payload
silently truncated to `snaplen` bytes. -/
theorem rpcap_c5_write_clamp (opts : FileOptions) (p : CapturedPacket) (sink : List Byte)
    (hover : opts.snaplen < p.data.length) (hsnap : opts.snaplen < 4294967296)
    (h0 : 0 ≤ p.time.sec) (h32 : p.time.sec < 4294967296) (horig : p.orig_len < 4294967296) :
    min p.data.length opts.snaplen = opts.snaplen ∧
    pcapWrite opts p sink =
      (none,
       sink ++ (recHdrBytes opts.non_native_byte_order p.time.sec.toNat
          (if opts.high_res_timestamps then p.time.nsec else (p.time.nsec + 500) / 1000)
          opts.snaplen p.orig_len ++
        p.data.take opts.snaplen)) := by
  have hmin : min p.data.length opts.snaplen = opts.snaplen := Nat.min_eq_right (by omega)
  refine ⟨hmin, ?_⟩
  have hw := pcapWrite_ok opts p sink h0 h32 (by omega) horig
  rw [hw, recordBytes, hmin]

/-- C6: when the writer's format uses microsecond resolution, the sub-second
field written for every accepted packet is the round-half-up division of the
time's nanosecond value by 1000 — which differs from truncating division
exactly when the remainder is at least 500. -/
theorem rpcap_c6_round_half_up (opts : FileOptions) (p : CapturedPacket) (sink : List Byte)
    (hlo : opts.high_res_timestamps = false)
    (h0 : 0 ≤ p.time.sec) (h32 : p.time.sec < 4294967296)
    (hlen : min p.data.length opts.snaplen < 4294967296) (horig : p.orig_len < 4294967296) :
    pcapWrite opts p sink =
      (none,
       sink ++ (recHdrBytes opts.non_native_byte_order p.time.sec.toNat
          ((p.time.nsec + 500) / 1000) (min p.data.length opts.snaplen) p.orig_len ++
        p.data.take (min p.data.length opts.snaplen))) ∧
    (500 ≤ p.time.nsec % 1000 → (p.time.nsec + 500) / 1000 = p.time.nsec / 1000 + 1) ∧
    (p.time.nsec % 1000 < 500 → (p.time.nsec + 500) / 1000 = p.time.nsec / 1000) := by
  refine ⟨?_, by omega, by omega⟩
  have hw := pcapWrite_ok opts p sink h0 h32 hlen horig
  rw [hw, recordBytes, hlo]
  simp only [if_false, Bool.false_eq_true]

/-- C10: `PcapWriter::write` is atomic with respect to its validation
errors: whenever it returns an error (`InvalidDate` for a time before the
epoch or seconds not fitting 32 bits, `InvalidPacketSize` for lengths not
fitting their fields), the sink is left exactly as it was — all validation
happens before any byte is written. -/
theorem rpcap_c10_write_atomic (opts : FileOptions) (p : CapturedPacket) (sink : List Byte)
    (e : PcapError) (h : (pcapWrite opts p sink).1 = some e) :
    (pcapWrite opts p sink).2 = sink ∧
    (e = .invalidDate ∨ e = .invalidPacketSize) ∧
    (e = .invalidDate → (p.time.sec < 0 ∨ 4294967296 ≤ p.time.sec)) := by
  have hdate : encode_time opts.high_res_timestamps p.time = none →
      p.time.sec < 0 ∨ 4294967296 ≤ p.time.sec := by
    intro henc
    unfold encode_time at henc
    by_cases h1 : p.time.sec < 0
    · exact Or.inl h1
    · rw [if_neg h1] at henc
      by_cases h2 : (4294967296 : Int) ≤ p.time.sec
      · exact Or.inr h2
      · rw [if_neg h2] at henc
        exact absurd henc (by simp)
  have hchar : (pcapWrite opts p sink = (some PcapError.invalidDate, sink) ∧
        encode_time opts.high_res_timestamps p.time = none) ∨
      pcapWrite opts p sink = (some PcapError.invalidPacketSize, sink) ∨
      (pcapWrite opts p sink).1 = none := by
    unfold pcapWrite
    cases henc : encode_time opts.high_res_timestamps p.time with
    | none => exact Or.inl ⟨rfl, rfl⟩
    | some sc =>
      obtain ⟨sec, subsec⟩ := sc
      simp only
      by_cases hl : 4294967296 ≤ min p.data.length opts.snaplen
      · rw [if_pos hl]
        exact Or.inr (Or.inl rfl)
      · rw [if_neg hl]
        by_cases ho : 4294967296 ≤ p.orig_len
        · rw [if_pos ho]
          exact Or.inr (Or.inl rfl)
        · rw [if_neg ho]
          exact Or.inr (Or.inr rfl)
  rcases hchar with ⟨heq, henc⟩ | heq | hnone
  · rw [heq] at h ⊢
    have he : e = PcapError.invalidDate := (Option.some_injective _ h).symm
    exact ⟨rfl, Or.inl he, fun _ => hdate henc⟩
  · rw [heq] at h ⊢
    have he : e = PcapError.invalidPacketSize := (Option.some_injective _ h).symm
    exact ⟨rfl, Or.inr he, fun hd => absurd (he ▸ hd) (by simp)⟩
  · rw [hnone] at h
    exact absurd h (by simp)

theorem readBack_data (opts : FileOptions) (p : CapturedPacket) :
    (readBack opts p).data = p.data := rfl

theorem readBack_orig_len (opts : FileOptions) (p : CapturedPacket) :
    (readBack opts p).orig_len = p.orig_len := rfl

theorem readBack_high_res (opts : FileOptions) (p : CapturedPacket)
    (h : opts.high_res_timestamps = true) : readBack opts p = p := by
  simp [readBack, h]

theorem recordsBytes_append (opts : FileOptions) (ps qs : List CapturedPacket) :
    recordsBytes opts (ps ++ qs) = recordsBytes opts ps ++ recordsBytes opts qs := by
  simp [recordsBytes]

theorem pcapCreateAndWriteAll_ok (opts : FileOptions) (ps : List CapturedPacket)
    (hsnap : opts.snaplen < 4294967296) (hv : ∀ p ∈ ps, validPacket opts p) :
    pcapCreateAndWriteAll opts ps = .ok (headerBytes opts ++ recordsBytes opts ps) := by
  unfold pcapCreateAndWriteAll
  rw [pcapWriterNew_eq opts hsnap]
  simp only
  rw [writeAll_ok opts ps (headerBytes opts) hv hsnap]

/-- C1 (amended): creating a file under `opts` and writing any sequence of
valid packets succeeds, and re-decoding the produced bytes recovers the
same `FileOptions` and exactly the original packets: payloads and
`orig_len` byte-for-byte equal, timestamps exactly equal under
high-resolution output and within 1 millisecond (in fact 500 ns, by
round-half-up microsecond conversion) otherwise.  Validity includes, for
microsecond output, that the nanosecond value rounds to below one second
(`nsec < 999 999 500`); at or above that boundary the round trip fails (see
the counterexample). -/
theorem rpcap_c1_roundtrip (opts : FileOptions) (ps : List CapturedPacket)
    (hsnap : opts.snaplen ≤ 0x60000000) (hlink : opts.linktype < 4294967296)
    (hv : ∀ p ∈ ps, validPacket opts p) :
    pcapCreateAndWriteAll opts ps = .ok (headerBytes opts ++ recordsBytes opts ps) ∧
    pcapNew (headerBytes opts ++ recordsBytes opts ps) =
      .ok (opts, ⟨some (fhOfOptions opts), recordsBytes opts ps⟩) ∧
    readAll (ps.length + 1) ⟨some (fhOfOptions opts), recordsBytes opts ps⟩ =
      some (ps.map (readBack opts)) ∧
    (∀ p ∈ ps, (readBack opts p).data = p.data ∧ (readBack opts p).orig_len = p.orig_len ∧
      (opts.high_res_timestamps = true → readBack opts p = p) ∧
      (timeNs (readBack opts p).time - timeNs p.time).natAbs ≤ 1000000) := by
  have hsn32 : opts.snaplen < 4294967296 := by omega
  refine ⟨pcapCreateAndWriteAll_ok opts ps hsn32 hv,
    pcapNew_headerBytes opts _ hsnap hlink,
    readAll_recordsBytes opts ps hv hsn32,
    ?_⟩
  intro p hp
  refine ⟨rfl, rfl, readBack_high_res opts p, ?_⟩
  obtain ⟨hd, ho, h0, h32, hn, hb⟩ := hv p hp
  unfold timeNs readBack
  cases hhr : opts.high_res_timestamps <;> simp only [if_true, if_false, Bool.false_eq_true]
  · have h1 : (p.time.nsec + 500) / 1000 * 1000 ≤ p.time.nsec + 500 := by omega
    have h2 : p.time.nsec + 500 < (p.time.nsec + 500) / 1000 * 1000 + 1000 := by omega
    omega
  · omega

/-- C9: checked append on a file the writer created recovers exactly the
original `FileOptions` and leaves the sink contents in place (positioned at
end-of-file); writing further valid packets appends their records, and
decoding the whole file from the start yields the pre-existing packets
followed by the appended ones (each as re-decoded, i.e. exactly equal under
high-resolution timestamps). -/
theorem rpcap_c9_append_checked (opts : FileOptions) (ps1 ps2 : List CapturedPacket)
    (hsnap : opts.snaplen ≤ 0x60000000) (hlink : opts.linktype < 4294967296)
    (hv1 : ∀ p ∈ ps1, validPacket opts p) (hv2 : ∀ p ∈ ps2, validPacket opts p) :
    pcapCreateAndWriteAll opts ps1 = .ok (headerBytes opts ++ recordsBytes opts ps1) ∧
    pcapAppendChecked (headerBytes opts ++ recordsBytes opts ps1) =
      .ok (opts, headerBytes opts ++ recordsBytes opts ps1) ∧
    writeAll opts ps2 (headerBytes opts ++ recordsBytes opts ps1) =
      (none, headerBytes opts ++ recordsBytes opts (ps1 ++ ps2)) ∧
    pcapNew (headerBytes opts ++ recordsBytes opts (ps1 ++ ps2)) =
      .ok (opts, ⟨some (fhOfOptions opts), recordsBytes opts (ps1 ++ ps2)⟩) ∧
    readAll ((ps1 ++ ps2).length + 1)
        ⟨some (fhOfOptions opts), recordsBytes opts (ps1 ++ ps2)⟩ =
      some (ps1.map (readBack opts) ++ ps2.map (readBack opts)) ∧
    (opts.high_res_timestamps = true →
      ps1.map (readBack opts) ++ ps2.map (readBack opts) = ps1 ++ ps2) := by
  have hsn32 : opts.snaplen < 4294967296 := by omega
  have hv12 : ∀ p ∈ ps1 ++ ps2, validPacket opts p := by
    intro p hp
    rcases List.mem_append.mp hp with h | h
    · exact hv1 p h
    · exact hv2 p h
  refine ⟨pcapCreateAndWriteAll_ok opts ps1 hsn32 hv1, ?_, ?_, pcapNew_headerBytes opts _ hsnap hlink, ?_, ?_⟩
  · unfold pcapAppendChecked
    rw [pcapNew_headerBytes opts _ hsnap hlink]
  · rw [writeAll_ok opts ps2 _ hv2 hsn32, recordsBytes_append, List.append_assoc]
  · rw [readAll_recordsBytes opts (ps1 ++ ps2) hv12 hsn32, List.map_append]
  · intro hhr
    rw [List.map_congr_left (fun p _ => readBack_high_res opts p hhr),
      List.map_congr_left (fun p _ => readBack_high_res opts p hhr)]
    simp

/-! ## Concrete inputs: counterexamples and witnesses -/

/-- Write one packet with time `0 s + 999 999 500 ns` at microsecond
resolution, then decode the produced file and run one `next` call. -/
def c1CexRun : Option NextResult :=
  match pcapCreateAndWriteAll ⟨4, 0, false, false⟩ [⟨⟨0, 999999500⟩, [1], 1⟩] with
  | .error _ => none
  | .ok file =>
    match pcapNew file with
    | .error _ => none
    | .ok (_, st) => some (pcapNext st).1

/-- C1 counterexample: a packet whose payload fits `snaplen` and whose
timestamp is representable (999 999 500 ns rounds half-up to 1 000 000 µs),
written at microsecond resolution, does not decode back: the reader returns
`InvalidDate` instead of the packet, so the round trip fails rather than
agreeing to within 1 millisecond. -/
theorem rpcap_c1_cex : c1CexRun = some (.err .invalidDate) := by decide

/-- A segmented reader: a 24-byte valid file header, end-of-stream, then 16
more bytes (io::Read allows a reader to yield data again after reporting
end-of-stream once). -/
def c7SegInput : SegStream := [headerBytes ⟨1, 0, false, false⟩, List.replicate 16 0]

/-- The first `next` call on `c7SegInput` (hits end-of-stream with zero
bytes read at the start of the record header). -/
def c7FirstCall : NextResult :=
  match pcapNewSeg c7SegInput with
  | .error e => .err e
  | .ok (_, st) => (pcapNextSeg st).1

/-- The second `next` call on `c7SegInput`, after exhaustion. -/
def c7SecondCall : NextResult :=
  match pcapNewSeg c7SegInput with
  | .error e => .err e
  | .ok (_, st) => (pcapNextSeg (pcapNextSeg st).2).1

/-- C7 counterexample: end-of-stream with zero bytes read returns the
terminal signal, but the following call does not — the underlying reader
yields a record header after its end-of-stream signal, the unpack succeeds
while the state is already `None`, and `self.state.as_mut().unwrap()`
panics.  So exhaustion is not idempotent for every underlying reader. -/
theorem rpcap_c7_cex : c7FirstCall = .ok none ∧ c7SecondCall = .panicked := by decide

/-- Decode one packet from a file whose single record declares
`incl_len = 2` but `orig_len = 0`, and report the packet's
`(data.len(), orig_len)`. -/
def c8CexRun : Option (Nat × Nat) :=
  match pcapNew (headerBytes ⟨10, 0, true, false⟩ ++ (recHdrBytes false 0 0 2 0 ++ [5, 6])) with
  | .error _ => none
  | .ok (_, st) =>
    match (pcapNext st).1 with
    | .ok (some p) => some (p.data.length, p.orig_len)
    | _ => none

/-- C8 counterexample: `next` accepts a record declaring `incl_len = 2`,
`orig_len = 0` and returns a packet with `data.len() = 2 > 0 = orig_len`,
violating the claimed invariant `data.len() ≤ orig_len` (the code never
compares `incl_len` with `orig_len`). -/
theorem rpcap_c8_cex : c8CexRun = some (2, 0) ∧ (0 : Nat) < 2 := by decide

def c1WitOpts : FileOptions := ⟨4, 1, true, false⟩

def c1WitPkt : CapturedPacket := ⟨⟨5, 123⟩, [9, 8], 2⟩

/-- C1 witness: the round trip evaluated at one concrete packet. -/
theorem rpcap_c1_roundtrip_witness :
    pcapCreateAndWriteAll c1WitOpts [c1WitPkt] =
      .ok (headerBytes c1WitOpts ++ recordsBytes c1WitOpts [c1WitPkt]) ∧
    readAll ([c1WitPkt].length + 1)
        ⟨some (fhOfOptions c1WitOpts), recordsBytes c1WitOpts [c1WitPkt]⟩ =
      some ([c1WitPkt].map (readBack c1WitOpts)) :=
  ⟨(rpcap_c1_roundtrip c1WitOpts [c1WitPkt] (by decide) (by decide) (by decide)).1,
   (rpcap_c1_roundtrip c1WitOpts [c1WitPkt] (by decide) (by decide) (by decide)).2.2.1⟩

def c2Fh : PcapFileHeader := ⟨true, false, 0, 0, 1⟩

def c2Hdr : List Byte := recHdrBytes false 0 0 2 7

/-- C2 witness: a record declaring `incl_len = 2` against `snaplen = 1` is
returned truncated to one byte and the stream is left at the next record. -/
theorem rpcap_c2_truncation_witness :
    min (parseRecordHeader c2Fh.need_byte_swap c2Hdr).incl_len c2Fh.snaplen = c2Fh.snaplen ∧
    pcapNext ⟨some c2Fh, c2Hdr ++ ([9, 8] ++ [1, 2, 3])⟩ =
      (.ok (some { time := ⟨0, 0⟩
                   data := [9, 8].take (min (parseRecordHeader c2Fh.need_byte_swap c2Hdr).incl_len
                     c2Fh.snaplen)
                   orig_len := (parseRecordHeader c2Fh.need_byte_swap c2Hdr).orig_len }),
       ⟨some c2Fh, [1, 2, 3]⟩) :=
  rpcap_c2_truncation c2Fh c2Hdr [9, 8] [1, 2, 3] ⟨0, 0⟩ (by decide) (by decide) (by decide)
    (by decide)

/-- C3 witness: an all-zero 24-byte header (unknown magic) is rejected with
`InvalidFileHeader`. -/
theorem rpcap_c3_invalid_header_witness :
    pcapNew (List.replicate 24 0) = .error .invalidFileHeader :=
  (rpcap_c3_invalid_header (List.replicate 24 0) (by decide)).mpr (by decide)

def c5Opts : FileOptions := ⟨2, 0, true, false⟩

def c5Pkt : CapturedPacket := ⟨⟨1, 5⟩, [1, 2, 3], 3⟩

/-- C5 witness: a 3-byte payload against `snaplen = 2` is written
successfully with `incl_len = 2` and the payload truncated to 2 bytes. -/
theorem rpcap_c5_write_clamp_witness :
    min c5Pkt.data.length c5Opts.snaplen = c5Opts.snaplen ∧
    pcapWrite c5Opts c5Pkt [] =
      (none,
       [] ++ (recHdrBytes c5Opts.non_native_byte_order c5Pkt.time.sec.toNat
          (if c5Opts.high_res_timestamps then c5Pkt.time.nsec else (c5Pkt.time.nsec + 500) / 1000)
          c5Opts.snaplen c5Pkt.orig_len ++
        c5Pkt.data.take c5Opts.snaplen)) :=
  rpcap_c5_write_clamp c5Opts c5Pkt [] (by decide) (by decide) (by decide) (by decide) (by decide)

def c6Opts : FileOptions := ⟨4, 0, false, false⟩

def c6Pkt : CapturedPacket := ⟨⟨1, 1500⟩, [7], 1⟩

/-- C6 witness: at microsecond resolution, 1500 ns is written as
`(1500 + 500) / 1000 = 2` µs — round half-up, where truncation would give 1. -/
theorem rpcap_c6_round_half_up_witness :
    pcapWrite c6Opts c6Pkt [] =
      (none,
       [] ++ (recHdrBytes c6Opts.non_native_byte_order c6Pkt.time.sec.toNat
          ((c6Pkt.time.nsec + 500) / 1000) (min c6Pkt.data.length c6Opts.snaplen)
          c6Pkt.orig_len ++
        c6Pkt.data.take (min c6Pkt.data.length c6Opts.snaplen))) ∧
    (500 ≤ c6Pkt.time.nsec % 1000 → (c6Pkt.time.nsec + 500) / 1000 = c6Pkt.time.nsec / 1000 + 1) ∧
    (c6Pkt.time.nsec % 1000 < 500 → (c6Pkt.time.nsec + 500) / 1000 = c6Pkt.time.nsec / 1000) :=
  rpcap_c6_round_half_up c6Opts c6Pkt [] (by decide) (by decide) (by decide) (by decide) (by decide)

def c8Fh : PcapFileHeader := ⟨true, false, 0, 0, 4⟩

def c8Stream : List Byte := recHdrBytes false 0 0 2 3 ++ [5, 6]

def c8WitPkt : CapturedPacket := ⟨⟨0, 0⟩, [5, 6], 3⟩

/-- C8 witness: the amended invariant evaluated at a concrete well-formed
record (`incl_len = 2 ≤ orig_len = 3`). -/
theorem rpcap_c8_amended_witness :
    c8WitPkt.data.length ≤ c8Fh.snaplen ∧
    ((parseRecordHeader c8Fh.need_byte_swap (c8Stream.take 16)).incl_len ≤ c8WitPkt.orig_len →
      c8WitPkt.data.length ≤ c8WitPkt.orig_len) :=
  rpcap_c8_amended ⟨some c8Fh, c8Stream⟩ c8Fh c8WitPkt ⟨some c8Fh, []⟩ rfl (by decide)

def c9Opts : FileOptions := ⟨4, 0, true, false⟩

def c9P1 : CapturedPacket := ⟨⟨1, 10⟩, [1], 1⟩

def c9P2 : CapturedPacket := ⟨⟨2, 20⟩, [2, 3], 2⟩

/-- C9 witness: checked append at a concrete one-packet file, then one more
packet; the whole file decodes to both packets in order. -/
theorem rpcap_c9_append_checked_witness :
    pcapAppendChecked (headerBytes c9Opts ++ recordsBytes c9Opts [c9P1]) =
      .ok (c9Opts, headerBytes c9Opts ++ recordsBytes c9Opts [c9P1]) ∧
    readAll (([c9P1] ++ [c9P2]).length + 1)
        ⟨some (fhOfOptions c9Opts), recordsBytes c9Opts ([c9P1] ++ [c9P2])⟩ =
      some ([c9P1].map (readBack c9Opts) ++ [c9P2].map (readBack c9Opts)) :=
  ⟨(rpcap_c9_append_checked c9Opts [c9P1] [c9P2] (by decide) (by decide) (by decide)
      (by decide)).2.1,
   (rpcap_c9_append_checked c9Opts [c9P1] [c9P2] (by decide) (by decide) (by decide)
      (by decide)).2.2.2.2.1⟩

def c10Opts : FileOptions := ⟨4, 0, true, false⟩

def c10Pkt : CapturedPacket := ⟨⟨-1, 0⟩, [], 0⟩

/-- C10 witness: a write rejected with `InvalidDate` (time before the
epoch) leaves the sink unchanged. -/
theorem rpcap_c10_write_atomic_witness :
    (pcapWrite c10Opts c10Pkt []).2 = [] ∧
    (PcapError.invalidDate = PcapError.invalidDate ∨
     PcapError.invalidDate = PcapError.invalidPacketSize) ∧
    (PcapError.invalidDate = PcapError.invalidDate →
      (c10Pkt.time.sec < 0 ∨ 4294967296 ≤ c10Pkt.time.sec)) :=
  rpcap_c10_write_atomic c10Opts c10Pkt [] .invalidDate (by decide)
